import Mathlib

/-!
Verification of the `WindowIterator` mini-batch sampler from the notebook
`5_word2vec.ipynb` (skip-gram training data iterator).

Shallow embedding conventions.

Randomness: numpy's global RNG is modelled as an abstract stream
`g : Nat → Nat` of draws together with a cursor (`pos`) into the stream.
Every primitive that consumes randomness reads stream values starting at the
cursor and returns the advanced cursor.  `np.random.randint(n)` reduces the
next stream value modulo `n` (raising `ValueError` when the range `[0, n)` is
empty, exactly as numpy does); `np.random.shuffle` is a Fisher-Yates shuffle
driven by the stream, consuming one value per element;
`np.random.permutation(n)` is `arange(n)` followed by such a shuffle.

Errors: Python exceptions are modelled with `Except PyErr`; an exception
propagates out of `__next__` without mutating the iterator (the caller keeps
the old state).

Integers: token ids are `Int` (numpy `int32`; the corpora involved are far
below the 32-bit range so no wraparound is modelled), positions are `Nat`,
context indices (`position + offset`) are `Int` since offsets are negative.
-/

deriving instance DecidableEq for Except

/-- Python runtime errors that the embedded code can raise. -/
inductive PyErr where
  | stopIteration
  | valueError
  | indexError
  | attributeError
deriving DecidableEq, Repr

/-- Fisher-Yates shuffle driven by the RNG stream `g` starting at stream
index `pos`: at each step the value `g pos` selects (mod the remaining
length) which remaining element comes next.  Structural recursion on a fuel
argument that callers instantiate with the list length. -/
def shuffleAux (g : Nat → Nat) : Nat → Nat → List Nat → List Nat
  | _, 0, _ => []
  | pos, fuel + 1, l =>
    if l.length = 0 then []
    else
      let j := g pos % l.length
      l.getD j 0 :: shuffleAux g (pos + 1) fuel (l.eraseIdx j)

/-- `np.random.shuffle(l)` under the stream model; consumes `l.length`
stream values. -/
def shuffleList (g : Nat → Nat) (pos : Nat) (l : List Nat) : List Nat :=
  shuffleAux g pos l.length l

/-- `np.random.randint(n)` (one positional argument): a uniform draw from
`[0, n)`, obtained by reducing the next stream value `v` modulo `n`; raises
`ValueError` when `n <= 0` (empty range), as numpy does. -/
def np_randint (n : Int) (v : Nat) : Except PyErr Nat :=
  if n ≤ 0 then .error .valueError else .ok (v % n.toNat)

/-- The line `w = np.random.randint(self.window - 1) + 1` of
`WindowIterator.__next__`: the per-call random sub-radius. -/
def subRadius (window : Nat) (v : Nat) : Except PyErr Nat :=
  match np_randint ((window : Int) - 1) v with
  | .error e => .error e
  | .ok r => .ok (r + 1)

/-- The value `ndarray.take` returns at an in-range index: non-negative
indices index from the front, negative indices wrap from the back
(numpy index semantics). -/
def takeTotal (l : List Int) (idx : Int) : Int :=
  if idx < 0 then l.getD (idx + l.length).toNat 0 else l.getD idx.toNat 0

/-- `a.take(idx)` for a 1-d array `a` (default `mode="raise"`): an index is
valid iff `-len(a) <= idx < len(a)`; anything else raises `IndexError`. -/
def np_take (l : List Int) (idx : Int) : Except PyErr Int :=
  if (0 ≤ idx ∧ idx < (l.length : Int)) ∨ (idx < 0 ∧ 0 ≤ idx + (l.length : Int)) then
    .ok (takeTotal l idx)
  else .error .indexError

/-- Elementwise effectful map: the first failing element's error propagates
(models a vectorized numpy operation that raises on a bad element). -/
def exceptMapM {α β : Type} (f : α → Except PyErr β) : List α → Except PyErr (List β)
  | [] => .ok []
  | x :: xs =>
    match f x with
    | .error e => .error e
    | .ok y =>
      match exceptMapM f xs with
      | .error e => .error e
      | .ok ys => .ok (y :: ys)

/-- `np.concatenate([np.arange(-w, 0), np.arange(1, w + 1)])`: the context
offsets `[-w, ..., -1, 1, ..., w]`. -/
def offsets (w : Nat) : List Int :=
  (List.range w).map (fun (k : Nat) => (k : Int) - (w : Int)) ++
    (List.range w).map (fun (k : Nat) => (k : Int) + 1)

/-- State of the `WindowIterator` object: the fields assigned by
`__init__` (and reassigned by `__next__`). -/
structure WindowIterator where
  dataset : List Int
  window : Nat
  batch_size : Nat
  _repeat : Bool
  order : List Nat
  current_position : Nat
  epoch : Nat
  is_new_epoch : Bool
deriving DecidableEq, Repr

/-- The slice `self.order[i:i_end]` with `i = current_position` and
`i_end = i + batch_size` (Python slices truncate at the end of the list). -/
def WindowIterator.positionBatch (it : WindowIterator) : List Nat :=
  (it.order.drop it.current_position).take it.batch_size

/-- `WindowIterator.__init__`: `self.order` is
`np.random.permutation(len(dataset) - window * 2) + window`, the cursor and
the epoch counter start at zero.  Returns the constructed object together
with the advanced stream cursor (the permutation of `n` elements consumes
`n` stream values).  Python would raise for `len(dataset) < 2 * window`
(negative size); here the truncated subtraction gives an empty order, a case
exercised by no claim. -/
def WindowIterator.init (dataset : List Int) (window batch_size : Nat)
    (rep : Bool) (g : Nat → Nat) (pos : Nat) : WindowIterator × Nat :=
  let n := dataset.length - window * 2
  ({ dataset := dataset
     window := window
     batch_size := batch_size
     _repeat := rep
     order := (shuffleList g pos (List.range n)).map (fun x => x + window)
     current_position := 0
     epoch := 0
     is_new_epoch := false }, pos + n)

/-- `WindowIterator.__next__`.  Returns the batch `(center, context)`, the
updated object and the advanced stream cursor, or the raised exception.
`context` is the row-major matrix `dataset.take(position[:, None] + offset[None, :])`:
one row of `2 * w` context tokens per center position. -/
def WindowIterator.next (it : WindowIterator) (g : Nat → Nat) (pos : Nat) :
    Except PyErr ((List Int × List (List Int)) × WindowIterator × Nat) :=
  if it._repeat = false ∧ 0 < it.epoch then .error .stopIteration
  else
    match subRadius it.window (g pos) with
    | .error e => .error e
    | .ok w =>
      match exceptMapM
          (fun (p : Nat) => exceptMapM (fun o => np_take it.dataset ((p : Int) + o)) (offsets w))
          it.positionBatch with
      | .error e => .error e
      | .ok context =>
        match exceptMapM (fun (p : Nat) => np_take it.dataset (p : Int)) it.positionBatch with
        | .error e => .error e
        | .ok center =>
          if it.order.length ≤ it.current_position + it.batch_size then
            .ok ((center, context),
              { it with order := shuffleList g (pos + 1) it.order
                        epoch := it.epoch + 1
                        is_new_epoch := true
                        current_position := 0 },
              pos + 1 + it.order.length)
          else
            .ok ((center, context),
              { it with is_new_epoch := false
                        current_position := it.current_position + it.batch_size },
              pos + 1)

/-- Run `k` calls of `__next__`, discarding batches; stops at the first
raised exception. -/
def runSteps (g : Nat → Nat) : Nat → WindowIterator × Nat →
    Except PyErr (WindowIterator × Nat)
  | 0, s => .ok s
  | k + 1, s =>
    match s.1.next g s.2 with
    | .error e => .error e
    | .ok (_, it2, p2) => runSteps g k (it2, p2)

/-- Run up to `k` calls of `__next__`, collecting the produced batches in
order; stops at the first raised exception. -/
def runBatches (g : Nat → Nat) : Nat → WindowIterator × Nat →
    List (List Int × List (List Int))
  | 0, _ => []
  | k + 1, s =>
    match s.1.next g s.2 with
    | .error _ => []
    | .ok (b, it2, p2) => b :: runBatches g k (it2, p2)

/-- Construct the iterator from the stream `g` (the seeded RNG) and collect
its first `k` batches. -/
def iterRun (g : Nat → Nat) (d : List Int) (window batch_size : Nat)
    (rep : Bool) (k : Nat) : List (List Int × List (List Int)) :=
  runBatches g k (WindowIterator.init d window batch_size rep g 0)

/-- Attribute names used by `WindowIterator.serialize`.  `Serializer` keys
(Python strings) are modelled by this enumeration; the constructor
`_order` stands for the string written in the source as underscore-order. -/
inductive AttrKey where
  | current_position
  | epoch
  | is_new_epoch
  | order
  | _order
deriving DecidableEq, Repr

/-- A chainer serializer: called with an attribute key and the current
value, returns the value to store back (identity when saving, the loaded
value when loading). -/
structure Serializer where
  natF : AttrKey → Nat → Nat
  boolF : AttrKey → Bool → Bool
  listF : AttrKey → List Nat → List Nat

/-- Dynamic lookup of a list-of-positions attribute on the object.  The
attributes assigned anywhere in the class body are `dataset`, `window`,
`batch_size`, `_repeat`, `order`, `current_position`, `epoch` and
`is_new_epoch`; the only one holding a positions array is `order`, so
looking up any other name (in particular `_order`) raises
`AttributeError`. -/
def WindowIterator.listAttr (it : WindowIterator) (name : AttrKey) :
    Except PyErr (List Nat) :=
  if name = AttrKey.order then .ok it.order else .error .attributeError

/-- `WindowIterator.serialize`: persists/restores `current_position`,
`epoch` and `is_new_epoch`, then evaluates `self._order` (note the
underscore: `__init__` assigned `self.order`, never `self._order`) and, were
that lookup to succeed and be non-None, would hand it to the serializer. -/
def WindowIterator.serialize (it : WindowIterator) (s : Serializer) :
    Except PyErr WindowIterator :=
  let it1 := { it with current_position := s.natF .current_position it.current_position }
  let it2 := { it1 with epoch := s.natF .epoch it1.epoch }
  let it3 := { it2 with is_new_epoch := s.boolF .is_new_epoch it2.is_new_epoch }
  match it3.listAttr ._order with
  | .error e => .error e
  | .ok od =>
    let _ := s.listF ._order od
    .ok it3

/-- `__next__` with array-allocation tracking, for the in-place /
fresh-array distinction: `order_id` is the allocation identity of the array
object `self.order` refers to, `next_id` the next unused identity.
`np.random.shuffle(self.order)` permutes the array IN PLACE, and no branch
of `__next__` rebinds `self.order` to a newly allocated array, so the
identity is unchanged in every branch. -/
structure StateA where
  it : WindowIterator
  order_id : Nat
  next_id : Nat
deriving DecidableEq, Repr

def nextA (s : StateA) (g : Nat → Nat) (pos : Nat) :
    Except PyErr ((List Int × List (List Int)) × StateA × Nat) :=
  match s.it.next g pos with
  | .error e => .error e
  | .ok (b, it2, p2) =>
    .ok (b, { it := it2, order_id := s.order_id, next_id := s.next_id }, p2)

/-- Construction with allocation tracking: `np.random.permutation` in
`__init__` allocates the array `self.order` refers to (identity `0`). -/
def stateAInit (dataset : List Int) (window batch_size : Nat) (rep : Bool)
    (g : Nat → Nat) : StateA × Nat :=
  let ip := WindowIterator.init dataset window batch_size rep g 0
  ({ it := ip.1, order_id := 0, next_id := 1 }, ip.2)

/-- Well-formedness of the sampling order: every position has at least
`window` tokens on each side of it within the corpus. -/
def OrderOK (it : WindowIterator) : Prop :=
  ∀ q ∈ it.order, it.window ≤ q ∧ q + it.window + 1 ≤ it.dataset.length

/-! ## Helper lemmas -/

theorem getD_cons_eraseIdx_perm (l : List Nat) (j : Nat) (hj : j < l.length) :
    (l.getD j 0 :: l.eraseIdx j).Perm l := by
  induction l generalizing j with
  | nil => simp at hj
  | cons x xs ih =>
    cases j with
    | zero => simp [List.getD]
    | succ j =>
      have hj2 : j < xs.length := by simpa using hj
      have h := ih j hj2
      simp only [List.getD_cons_succ, List.eraseIdx_cons_succ]
      exact ((List.Perm.swap x (xs.getD j 0) (xs.eraseIdx j)).trans
        (List.Perm.cons x h))

theorem shuffleAux_perm (g : Nat → Nat) :
    ∀ (fuel : Nat) (pos : Nat) (l : List Nat), l.length ≤ fuel →
      (shuffleAux g pos fuel l).Perm l := by
  intro fuel
  induction fuel with
  | zero =>
    intro pos l hl
    have hnil : l = [] := List.eq_nil_of_length_eq_zero (by omega)
    simp [hnil, shuffleAux]
  | succ fuel ih =>
    intro pos l hl
    by_cases h0 : l.length = 0
    · have hnil : l = [] := List.eq_nil_of_length_eq_zero h0
      simp [hnil, shuffleAux]
    · have hjlt : g pos % l.length < l.length := Nat.mod_lt _ (by omega)
      have hlen : (l.eraseIdx (g pos % l.length)).length = l.length - 1 := by
        rw [List.length_eraseIdx]
        simp [hjlt]
      have hrec := ih (pos + 1) (l.eraseIdx (g pos % l.length)) (by omega)
      have := List.Perm.cons (l.getD (g pos % l.length) 0) hrec
      simp only [shuffleAux, h0, if_false]
      exact this.trans (getD_cons_eraseIdx_perm l _ hjlt)

theorem shuffleList_perm (g : Nat → Nat) (pos : Nat) (l : List Nat) :
    (shuffleList g pos l).Perm l :=
  shuffleAux_perm g l.length pos l (Nat.le_refl _)

theorem shuffleList_length (g : Nat → Nat) (pos : Nat) (l : List Nat) :
    (shuffleList g pos l).length = l.length :=
  (shuffleList_perm g pos l).length_eq

theorem exceptMapM_ok_of_forall {α β : Type} (f : α → Except PyErr β) (h : α → β)
    (l : List α) (hf : ∀ x ∈ l, f x = .ok (h x)) :
    exceptMapM f l = .ok (l.map h) := by
  induction l with
  | nil => rfl
  | cons x xs ih =>
    have hx : f x = .ok (h x) := hf x (by simp)
    have hxs : exceptMapM f xs = .ok (xs.map h) :=
      ih (fun y hy => hf y (by simp [hy]))
    simp [exceptMapM, hx, hxs]

theorem exceptMapM_ok_eq_map {α β : Type} (f : α → Except PyErr β) (h : α → β)
    (hf : ∀ x y, f x = .ok y → y = h x) :
    ∀ (l : List α) (r : List β), exceptMapM f l = .ok r → r = l.map h := by
  intro l
  induction l with
  | nil =>
    intro r hr
    simp only [exceptMapM] at hr
    cases hr
    simp
  | cons x xs ih =>
    intro r hr
    simp only [exceptMapM] at hr
    cases hfx : f x with
    | error e => rw [hfx] at hr; cases hr
    | ok y =>
      rw [hfx] at hr
      cases hrec : exceptMapM f xs with
      | error e => rw [hrec] at hr; cases hr
      | ok ys =>
        rw [hrec] at hr
        cases hr
        simp [hf x y hfx, ih ys hrec]

theorem np_randint_ok (n : Int) (v : Nat) (y : Nat)
    (h : np_randint n v = .ok y) : 0 < n ∧ y = v % n.toNat := by
  unfold np_randint at h
  split at h
  · cases h
  · cases h
    omega

theorem subRadius_ok (window v w : Nat) (h : subRadius window v = .ok w) :
    2 ≤ window ∧ w = v % (window - 1) + 1 := by
  unfold subRadius at h
  cases hr : np_randint ((window : Int) - 1) v with
  | error e => rw [hr] at h; cases h
  | ok r =>
    rw [hr] at h
    cases h
    have := np_randint_ok _ _ _ hr
    obtain ⟨h1, h2⟩ := this
    constructor
    · omega
    · have : ((window : Int) - 1).toNat = window - 1 := by omega
      rw [h2, this]

theorem subRadius_eq (window v : Nat) (hw : 2 ≤ window) :
    subRadius window v = .ok (v % (window - 1) + 1) := by
  unfold subRadius np_randint
  have hpos : ¬ ((window : Int) - 1 ≤ 0) := by omega
  have htn : ((window : Int) - 1).toNat = window - 1 := by omega
  simp [hpos, htn]

theorem np_take_ok_of_bounds (l : List Int) (idx : Int)
    (h0 : 0 ≤ idx) (h1 : idx < (l.length : Int)) :
    np_take l idx = .ok (takeTotal l idx) := by
  unfold np_take
  rw [if_pos (Or.inl ⟨h0, h1⟩)]

theorem np_take_ok_val (l : List Int) (idx : Int) (y : Int)
    (h : np_take l idx = .ok y) : y = takeTotal l idx := by
  unfold np_take at h
  split at h
  · cases h; rfl
  · cases h

theorem offsets_length (w : Nat) : (offsets w).length = 2 * w := by
  unfold offsets
  rw [List.length_append, List.length_map, List.length_map, List.length_range]
  omega

theorem mem_offsets (w : Nat) (o : Int) :
    o ∈ offsets w ↔ (-(w : Int) ≤ o ∧ o ≤ (w : Int) ∧ o ≠ 0) := by
  unfold offsets
  simp only [List.mem_append, List.mem_map, List.mem_range]
  constructor
  · rintro (⟨k, hk, he⟩ | ⟨k, hk, he⟩) <;> omega
  · intro h
    by_cases hneg : o < 0
    · exact Or.inl ⟨(o + w).toNat, by omega, by omega⟩
    · exact Or.inr ⟨(o - 1).toNat, by omega, by omega⟩

theorem mem_positionBatch_mem_order (it : WindowIterator) (q : Nat)
    (h : q ∈ it.positionBatch) : q ∈ it.order := by
  unfold WindowIterator.positionBatch at h
  exact List.mem_of_mem_drop (List.mem_of_mem_take h)

theorem positionBatch_length (it : WindowIterator) :
    it.positionBatch.length = min it.batch_size (it.order.length - it.current_position) := by
  unfold WindowIterator.positionBatch
  simp

theorem next_ok_inv (it : WindowIterator) (g : Nat → Nat) (pos : Nat)
    (b : List Int × List (List Int)) (it2 : WindowIterator) (p2 : Nat)
    (h : it.next g pos = .ok (b, it2, p2)) :
    it2.dataset = it.dataset ∧ it2.window = it.window ∧
    it2.batch_size = it.batch_size ∧ it2._repeat = it._repeat ∧
    (if it.order.length ≤ it.current_position + it.batch_size then
        it2.order = shuffleList g (pos + 1) it.order ∧ it2.epoch = it.epoch + 1 ∧
        it2.current_position = 0 ∧ it2.is_new_epoch = true ∧
        p2 = pos + 1 + it.order.length
     else
        it2.order = it.order ∧ it2.epoch = it.epoch ∧
        it2.current_position = it.current_position + it.batch_size ∧
        it2.is_new_epoch = false ∧ p2 = pos + 1) := by
  unfold WindowIterator.next at h
  split at h
  · simp at h
  · split at h
    · simp at h
    · split at h
      · simp at h
      · split at h
        · simp at h
        · split at h
          · rename_i hcond
            simp only [Except.ok.injEq, Prod.mk.injEq] at h
            obtain ⟨hb, hit2, hp2⟩ := h
            rw [if_pos hcond]
            subst hit2
            subst hp2
            simp
          · rename_i hcond
            simp only [Except.ok.injEq, Prod.mk.injEq] at h
            obtain ⟨hb, hit2, hp2⟩ := h
            rw [if_neg hcond]
            subst hit2
            subst hp2
            simp

theorem take_bounds_of_orderOK (it : WindowIterator) (p : Nat) (o : Int) (w : Nat)
    (hord : OrderOK it) (hp : p ∈ it.positionBatch)
    (hw : 2 ≤ it.window) (hwle : w ≤ it.window - 1) (ho : o ∈ offsets w) :
    0 ≤ (p : Int) + o ∧ (p : Int) + o < (it.dataset.length : Int) := by
  have hmem := mem_positionBatch_mem_order it p hp
  have hb := hord p hmem
  have hoo := (mem_offsets w o).mp ho
  omega

theorem next_ok_full (it : WindowIterator) (g : Nat → Nat) (pos : Nat)
    (hw : 2 ≤ it.window) (hord : OrderOK it)
    (hgo : it._repeat = true ∨ it.epoch = 0) :
    it.next g pos =
      (if it.order.length ≤ it.current_position + it.batch_size then
        .ok ((it.positionBatch.map (fun (p : Nat) => takeTotal it.dataset (p : Int)),
              it.positionBatch.map (fun (p : Nat) =>
                (offsets (g pos % (it.window - 1) + 1)).map
                  (fun o => takeTotal it.dataset ((p : Int) + o)))),
          { it with order := shuffleList g (pos + 1) it.order
                    epoch := it.epoch + 1
                    is_new_epoch := true
                    current_position := 0 },
          pos + 1 + it.order.length)
      else
        .ok ((it.positionBatch.map (fun (p : Nat) => takeTotal it.dataset (p : Int)),
              it.positionBatch.map (fun (p : Nat) =>
                (offsets (g pos % (it.window - 1) + 1)).map
                  (fun o => takeTotal it.dataset ((p : Int) + o)))),
          { it with is_new_epoch := false
                    current_position := it.current_position + it.batch_size },
          pos + 1)) := by
  have hwlt : g pos % (it.window - 1) < it.window - 1 := Nat.mod_lt _ (by omega)
  have hstop : ¬ (it._repeat = false ∧ 0 < it.epoch) := by
    rcases hgo with h | h <;> simp [h]
  have hctx : exceptMapM
      (fun (p : Nat) => exceptMapM
        (fun o => np_take it.dataset ((p : Int) + o))
        (offsets (g pos % (it.window - 1) + 1)))
      it.positionBatch =
      .ok (it.positionBatch.map (fun (p : Nat) =>
        (offsets (g pos % (it.window - 1) + 1)).map
          (fun o => takeTotal it.dataset ((p : Int) + o)))) := by
    apply exceptMapM_ok_of_forall
    intro p hp
    apply exceptMapM_ok_of_forall
    intro o ho
    have hb := take_bounds_of_orderOK it p o (g pos % (it.window - 1) + 1)
      hord hp hw (by omega) ho
    exact np_take_ok_of_bounds _ _ hb.1 hb.2
  have hcen : exceptMapM (fun (p : Nat) => np_take it.dataset (p : Int))
      it.positionBatch =
      .ok (it.positionBatch.map (fun (p : Nat) => takeTotal it.dataset (p : Int))) := by
    apply exceptMapM_ok_of_forall
    intro p hp
    have hmem := mem_positionBatch_mem_order it p hp
    have hb := hord p hmem
    exact np_take_ok_of_bounds _ _ (by omega) (by omega)
  unfold WindowIterator.next
  rw [if_neg hstop, subRadius_eq it.window (g pos) hw]
  simp only [hctx, hcen]

theorem next_ok_batch (it : WindowIterator) (g : Nat → Nat) (pos : Nat)
    (center : List Int) (context : List (List Int)) (it2 : WindowIterator) (p2 : Nat)
    (h : it.next g pos = .ok ((center, context), it2, p2)) :
    2 ≤ it.window ∧
    center = it.positionBatch.map (fun (p : Nat) => takeTotal it.dataset (p : Int)) ∧
    context = it.positionBatch.map (fun (p : Nat) =>
      (offsets (g pos % (it.window - 1) + 1)).map
        (fun o => takeTotal it.dataset ((p : Int) + o))) := by
  unfold WindowIterator.next at h
  split at h
  · simp at h
  · split at h
    · simp at h
    · rename_i w hsub
      obtain ⟨hw2, hwval⟩ := subRadius_ok it.window (g pos) w hsub
      subst hwval
      split at h
      · simp at h
      · rename_i ctx hctx
        have hctxval := exceptMapM_ok_eq_map _
          (fun (p : Nat) => (offsets (g pos % (it.window - 1) + 1)).map
            (fun o => takeTotal it.dataset ((p : Int) + o)))
          (fun p y hy => exceptMapM_ok_eq_map _
            (fun o => takeTotal it.dataset ((p : Int) + o))
            (fun o z hz => np_take_ok_val _ _ _ hz) _ _ hy)
          _ _ hctx
        split at h
        · simp at h
        · rename_i cen hcen
          have hcenval := exceptMapM_ok_eq_map _
            (fun (p : Nat) => takeTotal it.dataset (p : Int))
            (fun p y hy => np_take_ok_val _ _ _ hy) _ _ hcen
          split at h <;>
          · simp only [Except.ok.injEq, Prod.mk.injEq] at h
            obtain ⟨⟨hc1, hc2⟩, hrest⟩ := h
            subst hc1
            subst hc2
            exact ⟨hw2, hcenval, hctxval⟩

theorem runSteps_split (g : Nat → Nat) (a b : Nat) (s : WindowIterator × Nat) :
    runSteps g (a + b) s =
      match runSteps g a s with
      | .error e => .error e
      | .ok s2 => runSteps g b s2 := by
  induction a generalizing s with
  | zero => simp only [Nat.zero_add, runSteps]
  | succ a ih =>
    have hn : a + 1 + b = (a + b) + 1 := by omega
    rw [hn]
    simp only [runSteps]
    cases h : s.1.next g s.2 with
    | error e => rfl
    | ok x =>
      obtain ⟨b1, it2, p2⟩ := x
      exact ih (it2, p2)

theorem runSteps_inv (g : Nat → Nat) (k : Nat) (s0 s1 : WindowIterator × Nat)
    (h : runSteps g k s0 = .ok s1) :
    s1.1.dataset = s0.1.dataset ∧ s1.1.window = s0.1.window ∧
    s1.1.batch_size = s0.1.batch_size ∧ s1.1._repeat = s0.1._repeat ∧
    s1.1.order.Perm s0.1.order := by
  induction k generalizing s0 with
  | zero =>
    simp only [runSteps] at h
    cases h
    exact ⟨rfl, rfl, rfl, rfl, List.Perm.refl _⟩
  | succ k ih =>
    simp only [runSteps] at h
    cases hn : s0.1.next g s0.2 with
    | error e => rw [hn] at h; cases h
    | ok x =>
      rw [hn] at h
      obtain ⟨b1, it2, p2⟩ := x
      have hinv := next_ok_inv s0.1 g s0.2 b1 it2 p2 hn
      have hrec := ih (it2, p2) h
      obtain ⟨hd, hw, hb, hr, hperm⟩ := hrec
      obtain ⟨hd2, hw2, hb2, hr2, hcond⟩ := hinv
      refine ⟨hd.trans hd2, hw.trans hw2, hb.trans hb2, hr.trans hr2, ?_⟩
      by_cases hbd : s0.1.order.length ≤ s0.1.current_position + s0.1.batch_size
      · rw [if_pos hbd] at hcond
        exact hperm.trans (hcond.1 ▸ shuffleList_perm g (s0.2 + 1) s0.1.order)
      · rw [if_neg hbd] at hcond
        exact hperm.trans (hcond.1 ▸ List.Perm.refl _)

theorem init_fields (d : List Int) (C B : Nat) (r : Bool) (g : Nat → Nat) (pos : Nat) :
    ((WindowIterator.init d C B r g pos).1).dataset = d ∧
    ((WindowIterator.init d C B r g pos).1).window = C ∧
    ((WindowIterator.init d C B r g pos).1).batch_size = B ∧
    ((WindowIterator.init d C B r g pos).1)._repeat = r ∧
    ((WindowIterator.init d C B r g pos).1).current_position = 0 ∧
    ((WindowIterator.init d C B r g pos).1).epoch = 0 := by
  unfold WindowIterator.init
  exact ⟨rfl, rfl, rfl, rfl, rfl, rfl⟩

theorem init_order_mem (d : List Int) (C B : Nat) (r : Bool) (g : Nat → Nat)
    (pos q : Nat) (h : q ∈ ((WindowIterator.init d C B r g pos).1).order) :
    C ≤ q ∧ q + C + 1 ≤ d.length := by
  unfold WindowIterator.init at h
  simp only [List.mem_map] at h
  obtain ⟨x, hx, hq⟩ := h
  have hx2 : x ∈ List.range (d.length - C * 2) :=
    (shuffleList_perm g pos (List.range (d.length - C * 2))).subset hx
  have hxlt := List.mem_range.mp hx2
  omega

theorem init_orderOK (d : List Int) (C B : Nat) (r : Bool) (g : Nat → Nat)
    (pos : Nat) : OrderOK ((WindowIterator.init d C B r g pos).1) := by
  intro q hq
  have h := init_order_mem d C B r g pos q hq
  have hf := init_fields d C B r g pos
  rw [hf.1, hf.2.1]
  exact ⟨h.1, by omega⟩

theorem init_order_length (d : List Int) (C B : Nat) (r : Bool) (g : Nat → Nat)
    (pos : Nat) :
    ((WindowIterator.init d C B r g pos).1).order.length = d.length - C * 2 := by
  unfold WindowIterator.init
  simp only [List.length_map]
  rw [shuffleList_length, List.length_range]

/-! ## Claim theorems -/

/-- Claim C1: for a corpus of length `N` with `N > 2C`, every center
position that a call of `__next__` draws from any reachable iterator state
(the slice `order[current_position : current_position + batch_size]`) lies
in `[C, N-C-1]` (stated without truncated subtraction as
`C ≤ q ∧ q + C + 1 ≤ N`), and consequently every context index
`q + o` that the call would extract (for the sub-radius drawn at stream
position `p`) lies within the corpus bounds `[0, N)`. -/
theorem c1_center_positions_in_range
    (d : List Int) (C B : Nat) (r : Bool) (g : Nat → Nat) (k : Nat)
    (it : WindowIterator) (p : Nat)
    (hC : 2 ≤ C) (hN : 2 * C < d.length)
    (hrun : runSteps g k (WindowIterator.init d C B r g 0) = .ok (it, p)) :
    (∀ q ∈ it.positionBatch, C ≤ q ∧ q + C + 1 ≤ d.length) ∧
    (∀ q ∈ it.positionBatch, ∀ o ∈ offsets (g p % (C - 1) + 1),
      0 ≤ (q : Int) + o ∧ (q : Int) + o < (d.length : Int)) := by
  have hinv := runSteps_inv g k _ (it, p) hrun
  have hmemrange : ∀ q ∈ it.positionBatch, C ≤ q ∧ q + C + 1 ≤ d.length := by
    intro q hq
    have hqo := mem_positionBatch_mem_order it q hq
    have hqi : q ∈ ((WindowIterator.init d C B r g 0).1).order :=
      hinv.2.2.2.2.subset hqo
    exact init_order_mem d C B r g 0 q hqi
  refine ⟨hmemrange, ?_⟩
  intro q hq o ho
  have hb := hmemrange q hq
  have hoo := (mem_offsets _ o).mp ho
  have hwlt : g p % (C - 1) < C - 1 := Nat.mod_lt _ (by omega)
  omega

/-- Claim C2, counterexample: the claim says the sub-radius `w` is drawn
uniformly from `[1, C]`; with `C = 3` the value `3` would then be in the
support, but `w = np.random.randint(window - 1) + 1` never yields `3`
(its value is always in `[1, 2]`), while `1` is attained. -/
theorem c2_counterexample :
    (∀ v : Nat, subRadius 3 v ≠ .ok 3) ∧ subRadius 3 0 = .ok 1 := by
  constructor
  · intro v h
    have hs := subRadius_ok 3 v 3 h
    omega
  · decide

/-- Claim C2 (amended): on every call the sub-radius `w` is drawn uniformly
from the integer range `[1, C-1]` (for `C ≥ 2`): it is the image of a
uniform draw on `[0, C-2]` under `+1`, every value of `[1, C-1]` is
attained, and no other value is. -/
theorem c2_sub_radius_range (C : Nat) (hC : 2 ≤ C) :
    (∀ v : Nat, subRadius C v = .ok (v % (C - 1) + 1) ∧
      1 ≤ v % (C - 1) + 1 ∧ v % (C - 1) + 1 ≤ C - 1) ∧
    (∀ w : Nat, 1 ≤ w → w ≤ C - 1 → subRadius C (w - 1) = .ok w) := by
  constructor
  · intro v
    refine ⟨subRadius_eq C v hC, by omega, ?_⟩
    have := Nat.mod_lt v (show 0 < C - 1 by omega)
    omega
  · intro w h1 h2
    rw [subRadius_eq C (w - 1) hC]
    have hm : (w - 1) % (C - 1) = w - 1 := Nat.mod_eq_of_lt (by omega)
    rw [hm]
    have hw1 : w - 1 + 1 = w := by omega
    rw [hw1]

/-- Claim C4: with `repeat=True`, on every successful call whose cursor
reaches the end of the permutation, `__next__` increments the epoch counter
by exactly one, resets `current_position` to zero, sets the new-epoch flag,
and the new permutation is a rearrangement (`List.Perm`, i.e. a bijection:
no positions gained or lost) of the old one; on every other successful call
the epoch counter and the permutation are unchanged. -/
theorem c4_epoch_boundary
    (it : WindowIterator) (g : Nat → Nat) (pos : Nat)
    (b : List Int × List (List Int)) (it2 : WindowIterator) (p2 : Nat)
    (hrep : it._repeat = true)
    (hok : it.next g pos = .ok (b, it2, p2)) :
    (it.order.length ≤ it.current_position + it.batch_size →
      it2.epoch = it.epoch + 1 ∧ it2.current_position = 0 ∧
      it2.is_new_epoch = true ∧ it2.order.Perm it.order) ∧
    (it.current_position + it.batch_size < it.order.length →
      it2.epoch = it.epoch ∧ it2.order = it.order ∧
      it2.current_position = it.current_position + it.batch_size) := by
  have hinv := next_ok_inv it g pos b it2 p2 hok
  obtain ⟨hd, hw, hb, hr, hcond⟩ := hinv
  constructor
  · intro hbd
    rw [if_pos hbd] at hcond
    exact ⟨hcond.2.1, hcond.2.2.1, hcond.2.2.2.1,
      hcond.1 ▸ shuffleList_perm g (pos + 1) it.order⟩
  · intro hbd
    rw [if_neg (by omega)] at hcond
    exact ⟨hcond.2.1, hcond.1, hcond.2.2.1⟩

/-- Claim C5: in every batch produced by `__next__` with sampled sub-radius
`w` (which equals `g pos % (window - 1) + 1` under the stream model), the
context rows are exactly the tokens at offsets `offsets w` from each drawn
center position, each row has exactly `2 * w` entries, the offset set is
exactly `{-w..-1} ∪ {1..w}`, and no context entry is taken from the center
position itself (`q + o ≠ q` for every offset `o`). -/
theorem c5_context_shape
    (it : WindowIterator) (g : Nat → Nat) (pos : Nat)
    (center : List Int) (context : List (List Int)) (it2 : WindowIterator) (p2 : Nat)
    (hok : it.next g pos = .ok ((center, context), it2, p2)) :
    context = it.positionBatch.map (fun (p : Nat) =>
      (offsets (g pos % (it.window - 1) + 1)).map
        (fun o => takeTotal it.dataset ((p : Int) + o))) ∧
    (∀ row ∈ context, row.length = 2 * (g pos % (it.window - 1) + 1)) ∧
    (∀ o : Int, o ∈ offsets (g pos % (it.window - 1) + 1) ↔
      (-(((g pos % (it.window - 1) + 1) : Nat) : Int) ≤ o ∧
        o ≤ (((g pos % (it.window - 1) + 1) : Nat) : Int) ∧ o ≠ 0)) ∧
    (∀ (q : Nat) (o : Int), o ∈ offsets (g pos % (it.window - 1) + 1) →
      (q : Int) + o ≠ (q : Int)) := by
  obtain ⟨hw2, hcen, hctx⟩ := next_ok_batch it g pos center context it2 p2 hok
  refine ⟨hctx, ?_, ?_, ?_⟩
  · intro row hrow
    rw [hctx] at hrow
    simp only [List.mem_map] at hrow
    obtain ⟨q, hq, hrw⟩ := hrow
    rw [← hrw, List.length_map, offsets_length]
  · intro o
    exact mem_offsets _ o
  · intro q o ho
    have hoo := (mem_offsets _ o).mp ho
    omega

/-- Claim C6, counterexample: for the corpus `[0..6]` with window 2 and
batch size 2 there are 3 center positions, so the second call returns a
batch with a single center/context pair, not `batch_size = 2` of them: the
claim that every returned batch has exactly `batch_size` pairs is false. -/
theorem c6_counterexample :
    (runBatches (fun _ => 0) 2
        (WindowIterator.init [0, 1, 2, 3, 4, 5, 6] 2 2 true (fun _ => 0) 0)).map
      (fun b => b.1.length) = [2, 1] ∧
    ¬ (∀ b ∈ runBatches (fun _ => 0) 2
        (WindowIterator.init [0, 1, 2, 3, 4, 5, 6] 2 2 true (fun _ => 0) 0),
        b.1.length = 2) := by
  constructor
  · decide
  · decide

/-- Claim C6 (amended): every batch returned by `__next__` contains
`min batch_size (len(order) - current_position)` center/context pairs --
exactly `batch_size` except possibly on the final call of a pass, when
fewer positions remain before the cursor reaches the end of the
permutation (the slice `order[i : i + batch_size]` truncates). -/
theorem c6_batch_sizes
    (it : WindowIterator) (g : Nat → Nat) (pos : Nat)
    (center : List Int) (context : List (List Int)) (it2 : WindowIterator) (p2 : Nat)
    (hok : it.next g pos = .ok ((center, context), it2, p2)) :
    center.length = min it.batch_size (it.order.length - it.current_position) ∧
    context.length = min it.batch_size (it.order.length - it.current_position) := by
  obtain ⟨hw2, hcen, hctx⟩ := next_ok_batch it g pos center context it2 p2 hok
  rw [hcen, hctx, List.length_map, List.length_map, positionBatch_length]
  exact ⟨rfl, rfl⟩

/-- Claim C7, counterexample: the claim says that at an epoch boundary the
sampling order is replaced by a FRESH array (not mutated in place).  In the
allocation-tracking model, the first call on the iterator below crosses an
epoch boundary (epoch goes 0 to 1); the resulting state keeps the SAME
allocation identity for `self.order` (`order_id = 0`, `next_id` still `1`:
nothing was allocated) while the array's contents changed from `[2, 4, 3]`
to `[4, 3, 2]` -- i.e. `np.random.shuffle` permuted the existing array in
place rather than replacing it. -/
theorem c7_counterexample :
    nextA (stateAInit [0, 1, 2, 3, 4, 5, 6] 2 3 true (fun p => p)).1 (fun p => p)
        (stateAInit [0, 1, 2, 3, 4, 5, 6] 2 3 true (fun p => p)).2 =
      .ok (([2, 4, 3], [[1, 3], [3, 5], [2, 4]]),
        { it := { dataset := [0, 1, 2, 3, 4, 5, 6], window := 2, batch_size := 3,
                  _repeat := true, order := [4, 3, 2], current_position := 0,
                  epoch := 1, is_new_epoch := true },
          order_id := 0, next_id := 1 }, 7) ∧
    (stateAInit [0, 1, 2, 3, 4, 5, 6] 2 3 true (fun p => p)).1.it.order ≠ [4, 3, 2] := by
  constructor
  · decide
  · decide

/-- Claim C7 (amended): at every epoch boundary the sampling order array is
shuffled IN PLACE: the allocation identity of `self.order` is unchanged by
every successful call (no fresh array is allocated), its new contents are a
permutation of the old contents (no positions gained or lost), and the
corpus array is read-only for the iterator's lifetime: no call of
`__next__` changes any element of `self.dataset`. -/
theorem c7_inplace_shuffle_readonly_dataset
    (s : StateA) (g : Nat → Nat) (pos : Nat)
    (b : List Int × List (List Int)) (s2 : StateA) (p2 : Nat)
    (hok : nextA s g pos = .ok (b, s2, p2)) :
    s2.order_id = s.order_id ∧ s2.next_id = s.next_id ∧
    s2.it.dataset = s.it.dataset ∧ s2.it.order.Perm s.it.order := by
  unfold nextA at hok
  cases hn : s.it.next g pos with
  | error e => rw [hn] at hok; cases hok
  | ok x =>
    rw [hn] at hok
    obtain ⟨b1, it2, p2x⟩ := x
    simp only [Except.ok.injEq, Prod.mk.injEq] at hok
    obtain ⟨hb, hs2, hp2⟩ := hok
    have hinv := next_ok_inv s.it g pos b1 it2 p2x hn
    obtain ⟨hd, hw, hbs, hr, hcond⟩ := hinv
    rw [← hs2]
    refine ⟨rfl, rfl, hd, ?_⟩
    by_cases hbd : s.it.order.length ≤ s.it.current_position + s.it.batch_size
    · rw [if_pos hbd] at hcond
      exact hcond.1 ▸ shuffleList_perm g (pos + 1) s.it.order
    · rw [if_neg hbd] at hcond
      exact hcond.1 ▸ List.Perm.refl _

/-- Claim C8: `serialize` is claimed to persist/restore the cursor and
epoch counters and to succeed on every iterator built by `__init__`.  In
fact it evaluates `self._order`, an attribute `__init__` never assigns (it
assigns `self.order`), so every call raises `AttributeError`: serialization
never succeeds, for any iterator state and any serializer. -/
theorem c8_serialize_attribute_error (it : WindowIterator) (s : Serializer) :
    it.serialize s = .error .attributeError := by
  rfl

/-- Claim C9: the iterator is deterministic as a function of the RNG: two
runs over the same corpus with the same window, batch size and repeat flag,
driven by RNG streams that agree pointwise (same seed), produce identical
sequences of (center, context) batches. -/
theorem c9_deterministic (g1 g2 : Nat → Nat) (d : List Int) (C B : Nat)
    (r : Bool) (k : Nat) (h : ∀ i, g1 i = g2 i) :
    iterRun g1 d C B r k = iterRun g2 d C B r k := by
  have hg : g1 = g2 := funext h
  rw [hg]

/-- Claim C10: for an iterator constructed with window radius exactly 1,
every call of `__next__` fails while drawing the random sub-radius
(`np.random.randint(0)` raises `ValueError` because the range is empty), so
no batch is ever produced: every run of one or more calls ends in
`ValueError`, for every corpus, batch size, repeat flag and RNG stream. -/
theorem c10_window_one_always_fails (d : List Int) (B : Nat) (r : Bool)
    (g : Nat → Nat) (k : Nat) :
    runSteps g (k + 1) (WindowIterator.init d 1 B r g 0) = .error .valueError := by
  have hnext : ((WindowIterator.init d 1 B r g 0).1).next g
      ((WindowIterator.init d 1 B r g 0).2) = .error .valueError := by
    unfold WindowIterator.next
    have hs : ¬ (((WindowIterator.init d 1 B r g 0).1)._repeat = false ∧
        0 < ((WindowIterator.init d 1 B r g 0).1).epoch) := by
      have hf := init_fields d 1 B r g 0
      rw [hf.2.2.2.2.2]
      simp
    rw [if_neg hs]
    have hsub : subRadius ((WindowIterator.init d 1 B r g 0).1).window
        (g ((WindowIterator.init d 1 B r g 0).2)) = .error .valueError := by
      have hf := init_fields d 1 B r g 0
      rw [hf.2.1]
      unfold subRadius np_randint
      norm_num
    rw [hsub]
  simp only [runSteps]
  rw [hnext]

theorem pass_progress (d : List Int) (C B : Nat) (g : Nat → Nat)
    (order0 : List Nat) (hC : 2 ≤ C)
    (hmem : ∀ q ∈ order0, C ≤ q ∧ q + C + 1 ≤ d.length) :
    ∀ (k : Nat) (q0 : Nat), k * B < order0.length →
      runSteps g k ((⟨d, C, B, false, order0, 0, 0, false⟩ : WindowIterator), q0) =
        .ok ((⟨d, C, B, false, order0, k * B, 0, false⟩ : WindowIterator), q0 + k) := by
  intro k
  induction k with
  | zero => intro q0 hk; simp [runSteps]
  | succ k ih =>
    intro q0 hk
    have hkB : k * B < order0.length := by
      have : k * B ≤ (k + 1) * B := Nat.mul_le_mul_right B (by omega)
      omega
    have hk1B : (k + 1) * B = k * B + B := Nat.succ_mul k B
    have hstep := ih q0 hkB
    rw [show k + 1 = k + 1 from rfl, runSteps_split g k 1, hstep]
    have hnext := next_ok_full
      (⟨d, C, B, false, order0, k * B, 0, false⟩ : WindowIterator) g (q0 + k)
      hC (fun q hq => hmem q hq) (Or.inr rfl)
    simp only [runSteps, hnext]
    rw [if_neg (by simpa using (by omega : ¬ (order0.length ≤ k * B + B)))]
    simp only [Except.ok.injEq, Prod.mk.injEq]
    refine ⟨?_, by omega⟩
    rw [hk1B]

theorem exhaustion_general (d : List Int) (C B : Nat) (g : Nat → Nat)
    (order0 : List Nat) (q0 : Nat) (hC : 2 ≤ C) (hB : 1 ≤ B)
    (hmem : ∀ x ∈ order0, C ≤ x ∧ x + C + 1 ≤ d.length)
    (hL1 : 1 ≤ order0.length) :
    ∃ it p,
      runSteps g ((order0.length + B - 1) / B)
        ((⟨d, C, B, false, order0, 0, 0, false⟩ : WindowIterator), q0) = .ok (it, p) ∧
      it.next g p = .error .stopIteration ∧
      ∀ j, runSteps g ((order0.length + B - 1) / B + 1 + j)
        ((⟨d, C, B, false, order0, 0, 0, false⟩ : WindowIterator), q0) =
          .error .stopIteration := by
  obtain ⟨q, hq⟩ : ∃ q, (order0.length - 1) / B = q := ⟨_, rfl⟩
  have hKeq : (order0.length + B - 1) / B = q + 1 := by
    rw [show order0.length + B - 1 = (order0.length - 1) + B by omega,
      Nat.add_div_right _ (show 0 < B by omega), hq]
  obtain ⟨r, hr⟩ : ∃ r, (order0.length - 1) % B = r := ⟨_, rfl⟩
  have hmod : B * q + r = order0.length - 1 := by
    rw [← hq, ← hr]; exact Nat.div_add_mod _ _
  have hrB : r < B := by rw [← hr]; exact Nat.mod_lt _ (by omega)
  have hle : q * B ≤ order0.length - 1 := by
    rw [← hq]; exact Nat.div_mul_le_self _ _
  have hcomm : B * q = q * B := Nat.mul_comm B q
  have hqBlt : q * B < order0.length := by clear hq hr hKeq; omega
  have hbd : order0.length ≤ q * B + B := by clear hq hr hKeq; omega
  rw [hKeq]
  have hkey := pass_progress d C B g order0 hC hmem q q0 hqBlt
  have hnext := next_ok_full
    (⟨d, C, B, false, order0, q * B, 0, false⟩ : WindowIterator) g
    (q0 + q) hC (fun x hx => hmem x hx) (Or.inr rfl)
  rw [if_pos hbd] at hnext
  have hrunK : runSteps g (q + 1)
      ((⟨d, C, B, false, order0, 0, 0, false⟩ : WindowIterator), q0) =
      .ok ((⟨d, C, B, false, shuffleList g (q0 + q + 1) order0, 0, 1,
        true⟩ : WindowIterator), q0 + q + 1 + order0.length) := by
    rw [runSteps_split g q 1, hkey]
    simp only [runSteps, hnext]
  have hstop : (⟨d, C, B, false, shuffleList g (q0 + q + 1) order0, 0, 1,
      true⟩ : WindowIterator).next g (q0 + q + 1 + order0.length) =
      .error .stopIteration := by
    unfold WindowIterator.next
    rw [if_pos ⟨rfl, Nat.zero_lt_one⟩]
  refine ⟨_, _, hrunK, hstop, ?_⟩
  intro j
  have h2 : runSteps g (q + 1 + 1)
      ((⟨d, C, B, false, order0, 0, 0, false⟩ : WindowIterator), q0) =
      .error .stopIteration := by
    rw [runSteps_split g (q + 1) 1, hrunK]
    simp only [runSteps, hstop]
  rw [runSteps_split g (q + 1 + 1) j, h2]

/-- Claim C3: with `repeat=False`, a corpus of length `N > 2C` (window
`C ≥ 2` so the sub-radius draw succeeds, batch size `B ≥ 1`), the first
`ceil((N-2C)/B)` calls of `__next__` succeed, and the next call -- and
every call after it -- raises `StopIteration`: no further batches are
produced. -/
theorem c3_exhaustion (d : List Int) (C B : Nat) (g : Nat → Nat)
    (hC : 2 ≤ C) (hN : 2 * C < d.length) (hB : 1 ≤ B) :
    ∃ it p,
      runSteps g ((d.length - 2 * C + B - 1) / B)
        (WindowIterator.init d C B false g 0) = .ok (it, p) ∧
      it.next g p = .error .stopIteration ∧
      ∀ j, runSteps g ((d.length - 2 * C + B - 1) / B + 1 + j)
        (WindowIterator.init d C B false g 0) = .error .stopIteration := by
  have hgen := exhaustion_general d C B g
    ((WindowIterator.init d C B false g 0).1).order
    ((WindowIterator.init d C B false g 0).2) hC hB
    (fun x hx => init_order_mem d C B false g 0 x hx)
    (by rw [init_order_length]; omega)
  have hlen : ((WindowIterator.init d C B false g 0).1).order.length
      = d.length - C * 2 := init_order_length d C B false g 0
  have hdiv : (((WindowIterator.init d C B false g 0).1).order.length + B - 1) / B
      = (d.length - 2 * C + B - 1) / B := by
    rw [hlen]
    congr 1
    omega
  rw [hdiv] at hgen
  have hinit : ((⟨d, C, B, false, ((WindowIterator.init d C B false g 0).1).order,
      0, 0, false⟩ : WindowIterator), (WindowIterator.init d C B false g 0).2)
      = WindowIterator.init d C B false g 0 := rfl
  rw [hinit] at hgen
  exact hgen

/-! ## Witnesses -/

theorem c1_witness :
    2 ≤ 2 ∧ 2 * 2 < ([0, 1, 2, 3, 4, 5, 6] : List Int).length ∧
    runSteps (fun _ => 0) 1
        (WindowIterator.init [0, 1, 2, 3, 4, 5, 6] 2 2 true (fun _ => 0) 0) =
      .ok ((⟨[0, 1, 2, 3, 4, 5, 6], 2, 2, true, [2, 3, 4], 2, 0, false⟩ :
        WindowIterator), 4) ∧
    ((∀ q ∈ (⟨[0, 1, 2, 3, 4, 5, 6], 2, 2, true, [2, 3, 4], 2, 0, false⟩ :
        WindowIterator).positionBatch,
        2 ≤ q ∧ q + 2 + 1 ≤ ([0, 1, 2, 3, 4, 5, 6] : List Int).length) ∧
      (∀ q ∈ (⟨[0, 1, 2, 3, 4, 5, 6], 2, 2, true, [2, 3, 4], 2, 0, false⟩ :
        WindowIterator).positionBatch, ∀ o ∈ offsets (0 % (2 - 1) + 1),
        0 ≤ (q : Int) + o ∧
          (q : Int) + o < ((([0, 1, 2, 3, 4, 5, 6] : List Int).length : Int)))) :=
  ⟨by decide, by decide, by decide,
    c1_center_positions_in_range [0, 1, 2, 3, 4, 5, 6] 2 2 true (fun _ => 0) 1
      (⟨[0, 1, 2, 3, 4, 5, 6], 2, 2, true, [2, 3, 4], 2, 0, false⟩ : WindowIterator) 4
      (by decide) (by decide) (by decide)⟩

theorem c2_witness :
    2 ≤ 3 ∧
    ((∀ v : Nat, subRadius 3 v = .ok (v % (3 - 1) + 1) ∧
      1 ≤ v % (3 - 1) + 1 ∧ v % (3 - 1) + 1 ≤ 3 - 1) ∧
    (∀ w : Nat, 1 ≤ w → w ≤ 3 - 1 → subRadius 3 (w - 1) = .ok w)) :=
  ⟨by decide, c2_sub_radius_range 3 (by decide)⟩

theorem c3_witness :
    2 ≤ 2 ∧ 2 * 2 < ([0, 1, 2, 3, 4, 5, 6] : List Int).length ∧ 1 ≤ 2 ∧
    (∃ it p,
      runSteps (fun _ => 0) ((([0, 1, 2, 3, 4, 5, 6] : List Int).length - 2 * 2 + 2 - 1) / 2)
        (WindowIterator.init [0, 1, 2, 3, 4, 5, 6] 2 2 false (fun _ => 0) 0) = .ok (it, p) ∧
      it.next (fun _ => 0) p = .error .stopIteration ∧
      ∀ j, runSteps (fun _ => 0)
        ((([0, 1, 2, 3, 4, 5, 6] : List Int).length - 2 * 2 + 2 - 1) / 2 + 1 + j)
        (WindowIterator.init [0, 1, 2, 3, 4, 5, 6] 2 2 false (fun _ => 0) 0) =
          .error .stopIteration) :=
  ⟨by decide, by decide, by decide,
    c3_exhaustion [0, 1, 2, 3, 4, 5, 6] 2 2 (fun _ => 0)
      (by decide) (by decide) (by decide)⟩

theorem c4_witness :
    (⟨[0, 1, 2, 3, 4, 5, 6], 2, 3, true, [2, 4, 3], 0, 0, false⟩ :
        WindowIterator)._repeat = true ∧
    (⟨[0, 1, 2, 3, 4, 5, 6], 2, 3, true, [2, 4, 3], 0, 0, false⟩ :
        WindowIterator).next (fun p => p) 3 =
      .ok (([2, 4, 3], [[1, 3], [3, 5], [2, 4]]),
        (⟨[0, 1, 2, 3, 4, 5, 6], 2, 3, true, [4, 3, 2], 0, 1, true⟩ : WindowIterator), 7) ∧
    (((⟨[0, 1, 2, 3, 4, 5, 6], 2, 3, true, [2, 4, 3], 0, 0, false⟩ :
        WindowIterator).order.length ≤
      (⟨[0, 1, 2, 3, 4, 5, 6], 2, 3, true, [2, 4, 3], 0, 0, false⟩ :
        WindowIterator).current_position +
      (⟨[0, 1, 2, 3, 4, 5, 6], 2, 3, true, [2, 4, 3], 0, 0, false⟩ :
        WindowIterator).batch_size →
      (⟨[0, 1, 2, 3, 4, 5, 6], 2, 3, true, [4, 3, 2], 0, 1, true⟩ :
        WindowIterator).epoch =
        (⟨[0, 1, 2, 3, 4, 5, 6], 2, 3, true, [2, 4, 3], 0, 0, false⟩ :
          WindowIterator).epoch + 1 ∧
      (⟨[0, 1, 2, 3, 4, 5, 6], 2, 3, true, [4, 3, 2], 0, 1, true⟩ :
        WindowIterator).current_position = 0 ∧
      (⟨[0, 1, 2, 3, 4, 5, 6], 2, 3, true, [4, 3, 2], 0, 1, true⟩ :
        WindowIterator).is_new_epoch = true ∧
      (⟨[0, 1, 2, 3, 4, 5, 6], 2, 3, true, [4, 3, 2], 0, 1, true⟩ :
        WindowIterator).order.Perm
        (⟨[0, 1, 2, 3, 4, 5, 6], 2, 3, true, [2, 4, 3], 0, 0, false⟩ :
          WindowIterator).order) ∧
    ((⟨[0, 1, 2, 3, 4, 5, 6], 2, 3, true, [2, 4, 3], 0, 0, false⟩ :
        WindowIterator).current_position +
      (⟨[0, 1, 2, 3, 4, 5, 6], 2, 3, true, [2, 4, 3], 0, 0, false⟩ :
        WindowIterator).batch_size <
      (⟨[0, 1, 2, 3, 4, 5, 6], 2, 3, true, [2, 4, 3], 0, 0, false⟩ :
        WindowIterator).order.length →
      (⟨[0, 1, 2, 3, 4, 5, 6], 2, 3, true, [4, 3, 2], 0, 1, true⟩ :
        WindowIterator).epoch =
        (⟨[0, 1, 2, 3, 4, 5, 6], 2, 3, true, [2, 4, 3], 0, 0, false⟩ :
          WindowIterator).epoch ∧
      (⟨[0, 1, 2, 3, 4, 5, 6], 2, 3, true, [4, 3, 2], 0, 1, true⟩ :
        WindowIterator).order =
        (⟨[0, 1, 2, 3, 4, 5, 6], 2, 3, true, [2, 4, 3], 0, 0, false⟩ :
          WindowIterator).order ∧
      (⟨[0, 1, 2, 3, 4, 5, 6], 2, 3, true, [4, 3, 2], 0, 1, true⟩ :
        WindowIterator).current_position =
        (⟨[0, 1, 2, 3, 4, 5, 6], 2, 3, true, [2, 4, 3], 0, 0, false⟩ :
          WindowIterator).current_position +
        (⟨[0, 1, 2, 3, 4, 5, 6], 2, 3, true, [2, 4, 3], 0, 0, false⟩ :
          WindowIterator).batch_size)) :=
  ⟨by decide, by decide,
    c4_epoch_boundary
      (⟨[0, 1, 2, 3, 4, 5, 6], 2, 3, true, [2, 4, 3], 0, 0, false⟩ : WindowIterator)
      (fun p => p) 3 ([2, 4, 3], [[1, 3], [3, 5], [2, 4]])
      (⟨[0, 1, 2, 3, 4, 5, 6], 2, 3, true, [4, 3, 2], 0, 1, true⟩ : WindowIterator) 7
      (by decide) (by decide)⟩

theorem c5_witness :
    (⟨[0, 1, 2, 3, 4, 5, 6], 2, 3, true, [2, 4, 3], 0, 0, false⟩ :
        WindowIterator).next (fun p => p) 3 =
      .ok (([2, 4, 3], [[1, 3], [3, 5], [2, 4]]),
        (⟨[0, 1, 2, 3, 4, 5, 6], 2, 3, true, [4, 3, 2], 0, 1, true⟩ : WindowIterator), 7) ∧
    (([[1, 3], [3, 5], [2, 4]] : List (List Int)) =
      (⟨[0, 1, 2, 3, 4, 5, 6], 2, 3, true, [2, 4, 3], 0, 0, false⟩ :
        WindowIterator).positionBatch.map (fun (p : Nat) =>
          (offsets (3 % (2 - 1) + 1)).map (fun o =>
            takeTotal ([0, 1, 2, 3, 4, 5, 6] : List Int) ((p : Int) + o))) ∧
    (∀ row ∈ ([[1, 3], [3, 5], [2, 4]] : List (List Int)),
        row.length = 2 * (3 % (2 - 1) + 1)) ∧
    (∀ o : Int, o ∈ offsets (3 % (2 - 1) + 1) ↔
      (-(((3 % (2 - 1) + 1) : Nat) : Int) ≤ o ∧
        o ≤ (((3 % (2 - 1) + 1) : Nat) : Int) ∧ o ≠ 0)) ∧
    (∀ (q : Nat) (o : Int), o ∈ offsets (3 % (2 - 1) + 1) →
        (q : Int) + o ≠ (q : Int))) :=
  ⟨by decide,
    c5_context_shape
      (⟨[0, 1, 2, 3, 4, 5, 6], 2, 3, true, [2, 4, 3], 0, 0, false⟩ : WindowIterator)
      (fun p => p) 3 [2, 4, 3] [[1, 3], [3, 5], [2, 4]]
      (⟨[0, 1, 2, 3, 4, 5, 6], 2, 3, true, [4, 3, 2], 0, 1, true⟩ : WindowIterator) 7
      (by decide)⟩

theorem c6_witness :
    (⟨[0, 1, 2, 3, 4, 5, 6], 2, 3, true, [2, 4, 3], 0, 0, false⟩ :
        WindowIterator).next (fun p => p) 3 =
      .ok (([2, 4, 3], [[1, 3], [3, 5], [2, 4]]),
        (⟨[0, 1, 2, 3, 4, 5, 6], 2, 3, true, [4, 3, 2], 0, 1, true⟩ : WindowIterator), 7) ∧
    (([2, 4, 3] : List Int).length = min 3 ((([2, 4, 3] : List Nat)).length - 0) ∧
      ([[1, 3], [3, 5], [2, 4]] : List (List Int)).length =
        min 3 ((([2, 4, 3] : List Nat)).length - 0)) :=
  ⟨by decide,
    c6_batch_sizes
      (⟨[0, 1, 2, 3, 4, 5, 6], 2, 3, true, [2, 4, 3], 0, 0, false⟩ : WindowIterator)
      (fun p => p) 3 [2, 4, 3] [[1, 3], [3, 5], [2, 4]]
      (⟨[0, 1, 2, 3, 4, 5, 6], 2, 3, true, [4, 3, 2], 0, 1, true⟩ : WindowIterator) 7
      (by decide)⟩

theorem c7_witness :
    nextA (⟨⟨[0, 1, 2, 3, 4, 5, 6], 2, 3, true, [2, 4, 3], 0, 0, false⟩, 0, 1⟩ : StateA)
        (fun p => p) 3 =
      .ok (([2, 4, 3], [[1, 3], [3, 5], [2, 4]]),
        (⟨⟨[0, 1, 2, 3, 4, 5, 6], 2, 3, true, [4, 3, 2], 0, 1, true⟩, 0, 1⟩ : StateA), 7) ∧
    ((0 : Nat) = 0 ∧ (1 : Nat) = 1 ∧
      ([0, 1, 2, 3, 4, 5, 6] : List Int) = [0, 1, 2, 3, 4, 5, 6] ∧
      ([4, 3, 2] : List Nat).Perm [2, 4, 3]) :=
  ⟨by decide,
    c7_inplace_shuffle_readonly_dataset
      (⟨⟨[0, 1, 2, 3, 4, 5, 6], 2, 3, true, [2, 4, 3], 0, 0, false⟩, 0, 1⟩ : StateA)
      (fun p => p) 3 ([2, 4, 3], [[1, 3], [3, 5], [2, 4]])
      (⟨⟨[0, 1, 2, 3, 4, 5, 6], 2, 3, true, [4, 3, 2], 0, 1, true⟩, 0, 1⟩ : StateA) 7
      (by decide)⟩

theorem c9_witness :
    (∀ i : Nat, (fun (i : Nat) => i) i = (fun (i : Nat) => 0 + i) i) ∧
    iterRun (fun (i : Nat) => i) [0, 1, 2, 3, 4, 5, 6] 2 3 true 2 =
      iterRun (fun (i : Nat) => 0 + i) [0, 1, 2, 3, 4, 5, 6] 2 3 true 2 :=
  ⟨fun i => (Nat.zero_add i).symm,
    c9_deterministic (fun (i : Nat) => i) (fun (i : Nat) => 0 + i)
      [0, 1, 2, 3, 4, 5, 6] 2 3 true 2 (fun i => (Nat.zero_add i).symm)⟩
